import Mathlib

/-!
Verification development for the phishing-email-detection repository.

The Python modules under `src/` are shallowly embedded as executable Lean
definitions:

* `src/urls.py`    — URL parsing helpers (a faithful model of the parts of
  Python's `urllib.parse.urlparse` that the analyzer reads), `_resolve_url`,
  `_get_domain_age`, `_analyze_single_url`;
* `src/attachments.py` — `analyze_attachments` (with `os.path.splitext`
  modelled faithfully);
* `src/headers.py` — `_check_dmarc`;
* `src/scoring.py` — `calculate_risk_score`;
* `src/report.py`  — the risk-level derivation of `generate_report`.

External effects (HTTP HEAD requests, WHOIS lookups, DNS queries) are
modelled as oracle functions passed to the embedded code; each oracle's
codomain enumerates exactly the outcomes the Python code distinguishes
(including the catch-all `except` branches).  The two module-level
memoization caches of `urls.py` are modelled in their empty (first-use)
state: every lookup goes to the oracle, which is the cache-miss path of the
source.  Machine integers do not occur (Python integers are unbounded), so
scores are `Int` and counters are `Nat`.
-/

/-! ## Generic string utilities (List Char based) -/

/-- Does `pat` occur at the head of `hay`?  (Executable prefix test.) -/
def listStartsWith : List Char → List Char → Bool
  | _, [] => true
  | [], _ :: _ => false
  | h :: hs, p :: ps => (h == p) && listStartsWith hs ps

/-- Does `pat` occur as a contiguous substring of `hay`?  This is the
meaning of Python's `pat in hay` on strings. -/
def listIsSubstr (pat : List Char) : List Char → Bool
  | [] => pat.isEmpty
  | c :: rest => listStartsWith (c :: rest) pat || listIsSubstr pat rest

/-- Python's `pat in hay` for strings. -/
def strContainsStr (hay pat : String) : Bool :=
  listIsSubstr pat.toList hay.toList

/-- Split a character list at the first occurrence of `c`:
`some (before, after)` when `c` occurs, `none` otherwise. -/
def breakAtChar (c : Char) : List Char → Option (List Char × List Char)
  | [] => none
  | x :: xs =>
    if x == c then some ([], xs)
    else (breakAtChar c xs).map (fun p => (x :: p.1, p.2))

/-- Split a character list at the last occurrence of `c` (Python
`rpartition` without the separator itself). -/
def breakAtLastChar (c : Char) (l : List Char) : Option (List Char × List Char) :=
  match breakAtChar c l.reverse with
  | none => none
  | some (afterRev, beforeRev) => some (beforeRev.reverse, afterRev.reverse)

/-- Python `str.split(sep)` for a single-character separator: always returns
at least one (possibly empty) field. -/
def splitOnCharList (c : Char) : List Char → List (List Char)
  | [] => [[]]
  | x :: xs =>
    let r := splitOnCharList c xs
    if x == c then [] :: r
    else
      match r with
      | [] => [[x]]
      | y :: ys => (x :: y) :: ys

/-- Python `str.split(sep)` on strings. -/
def splitOnStr (s : String) (c : Char) : List String :=
  (splitOnCharList c s.toList).map List.asString

/-- Python `str.count(c)` for a single character. -/
def countChar (c : Char) (s : String) : Nat :=
  s.toList.count c

/-- Python `str.lower()` (ASCII-relevant part), written structurally so that
concrete inputs evaluate. -/
def strLower (s : String) : String :=
  (s.toList.map Char.toLower).asString

/-! ## Model of `urllib.parse.urlparse` (the fields the analyzer reads)

Transcribed from CPython's `urllib.parse.urlsplit` for absolute URLs:
scheme recognition (leading alphabetic run of scheme characters before the
first `:`), netloc between `//` and the first of `/?#`, fragment split at
the first `#`, query split at the first `?`; `hostname` and `username` are
derived from the netloc exactly as the `_hostinfo`/`_userinfo` properties
do (userinfo before the last `@`, host lowercased, bracketed IPv6 hosts,
empty host reported as `none`). -/

structure ParsedUrl where
  scheme : String
  netloc : String
  path : String
  query : String
  fragment : String
deriving DecidableEq, Repr

/-- Characters allowed in a URL scheme (CPython `scheme_chars`). -/
def isSchemeChar (ch : Char) : Bool :=
  ch.isAlpha || ch.isDigit || ch == '+' || ch == '-' || ch == '.'

/-- Take characters until one of `/`, `?`, `#`; return (taken, rest). -/
def spanNetloc : List Char → List Char × List Char
  | [] => ([], [])
  | x :: xs =>
    if x == '/' || x == '?' || x == '#' then ([], x :: xs)
    else
      let r := spanNetloc xs
      (x :: r.1, r.2)

/-- CPython `urlsplit` on a character list. -/
def urlsplitList (l : List Char) : ParsedUrl :=
  let (scheme, rest) :=
    match breakAtChar ':' l with
    | some (before, after) =>
      if !before.isEmpty && (before.headD ' ').isAlpha && before.all isSchemeChar then
        (before.map Char.toLower, after)
      else
        ([], l)
    | none => ([], l)
  let (netloc, rest) :=
    match rest with
    | '/' :: '/' :: r =>
      let s := spanNetloc r
      (s.1, s.2)
    | _ => ([], rest)
  let (rest, fragment) :=
    match breakAtChar '#' rest with
    | some (before, after) => (before, after)
    | none => (rest, [])
  let (path, query) :=
    match breakAtChar '?' rest with
    | some (before, after) => (before, after)
    | none => (rest, [])
  { scheme := scheme.asString
    netloc := netloc.asString
    path := path.asString
    query := query.asString
    fragment := fragment.asString }

/-- Python's `urlparse` (the `urlsplit` fields; `params` is unused by the
analyzer and omitted). -/
def urlparse (url : String) : ParsedUrl :=
  urlsplitList url.toList

/-- The host part of the netloc, before lowercasing (CPython `_hostinfo`). -/
def ParsedUrl.hostnameList (p : ParsedUrl) : List Char :=
  let hostinfo :=
    match breakAtLastChar '@' p.netloc.toList with
    | none => p.netloc.toList
    | some (_, after) => after
  match breakAtChar '[' hostinfo with
  | some (_, bracketed) => bracketed.takeWhile (fun ch => ch ≠ ']')
  | none => hostinfo.takeWhile (fun ch => ch ≠ ':')

/-- CPython `SplitResult.hostname`: lowercased host, `none` when empty. -/
def ParsedUrl.hostname (p : ParsedUrl) : Option String :=
  let h := p.hostnameList.map Char.toLower
  if h.isEmpty then none else some h.asString

/-- CPython `SplitResult.username`: `none` when the netloc has no `@`,
otherwise the userinfo before the first `:` (possibly empty). -/
def ParsedUrl.username (p : ParsedUrl) : Option String :=
  match breakAtLastChar '@' p.netloc.toList with
  | none => none
  | some (userinfo, _) => some (userinfo.takeWhile (fun ch => ch ≠ ':')).asString

/-! ## `src/urls.py` — per-URL analysis

`_resolve_url` issues HTTP HEAD requests through a `requests.Session`; the
session is modelled by an oracle `head : String → Option (Nat × Option String)`
giving, for a URL, `none` when the request raises `requests.RequestException`
and otherwise `some (statusCode, locationHeader)`.  `_get_domain_age` performs
a WHOIS lookup; its observable outcomes are enumerated by `WhoisOutcome`.
Both module-level caches are modelled empty (first-use behavior). -/

/-- Outcome of the WHOIS lookup in `_get_domain_age`: a computed age in
days, a record without a creation date, or a raised exception. -/
inductive WhoisOutcome where
  | age (days : Int)
  | noCreationDate
  | lookupFailed
deriving DecidableEq, Repr

/-- `_get_domain_age` (src/urls.py:72-96), cache empty: returns the optional
age and the reason codes it appends. -/
def get_domain_age (whoisO : String → WhoisOutcome) (domain : String) :
    Option Int × List String :=
  match whoisO domain with
  | .age d => (some d, [])
  | .noCreationDate => (none, ["WHOIS_NO_CREATION_DATE"])
  | .lookupFailed => (none, ["WHOIS_LOOKUP_FAILED"])

/-- The redirect-following loop of `_resolve_url` (src/urls.py:47-69), with
`fuel` remaining loop iterations.  Returns the resolved URL (or `none`),
the appended reason codes, and — as instrumentation for the termination
bound — the number of HEAD requests issued. -/
def resolveUrlAux (head : String → Option (Nat × Option String)) :
    Nat → String → Option String × List String × Nat
  | 0, _ => (none, ["TOO_MANY_REDIRECTS"], 0)
  | fuel + 1, current =>
    match head current with
    | none => (none, ["URL_RESOLUTION_FAILED"], 1)
    | some (status, locHdr) =>
      if 300 ≤ status ∧ status < 400 then
        match locHdr with
        | some loc =>
          let r := resolveUrlAux head fuel loc
          (r.1, r.2.1, r.2.2 + 1)
        | none => (some current, [], 1)
      else (some current, [], 1)

/-- `_resolve_url` with its default `max_redirects = 5`, cache empty. -/
def resolve_url (head : String → Option (Nat × Option String)) (url : String) :
    Option String × List String × Nat :=
  resolveUrlAux head 5 url

/-- The `url_analysis` block of the configuration consumed by
`_analyze_single_url` (missing keys default to empty collections, as with
`dict.get(..., [])`). -/
structure UrlConfig where
  url_shorteners : List String := []
  suspicious_tlds : List String := []
  url_keywords : List String := []
deriving Repr

/-- The per-URL result dictionary built by `_analyze_single_url`.  The
`final_url` slot is typed `Option String` so that the specified
`final_url = None` outcome is expressible; the code initializes it with the
original URL. -/
structure UrlAnalysis where
  original_url : String
  final_url : Option String
  is_suspicious : Bool
  suspicion_reasons : List String
  domain_age_days : Option Int
deriving DecidableEq, Repr

/-- The anchored dotted-quad test `re.match(r'^\d{1,3}\.\d{1,3}\.\d{1,3}\.\d{1,3}$', h)`
of src/urls.py:135-136. -/
def isIpHostname (h : String) : Bool :=
  let groups := splitOnCharList '.' h.toList
  groups.length == 4 &&
    groups.all (fun g => !g.isEmpty && g.length ≤ 3 && g.all Char.isDigit)

/-- The keyword test of src/urls.py:113,161: `re.compile('|'.join(keywords),
re.IGNORECASE)` searched in path and query.  Keywords are modelled as
literal strings (the configuration supplies plain words), so the search is
a case-insensitive substring test for any keyword; an empty keyword list
compiles no pattern and never matches. -/
def keywordHit (keywords : List String) (path query : String) : Bool :=
  !keywords.isEmpty &&
    keywords.any (fun k =>
      strContainsStr (strLower path) (strLower k)
        || strContainsStr (strLower query) (strLower k))

/-- Lines 127-173 of `_analyze_single_url`: everything after redirect
resolution.  The source appends each reason with a separate `if`-guarded
`append`; no guard reads `suspicion_reasons` or `is_suspicious` back, so
the straight-line updates are written as one record update whose reason
list concatenates the per-check segments in source order. -/
def analyzeTail (whoisO : String → WhoisOutcome) (cfg : UrlConfig)
    (a : UrlAnalysis) : UrlAnalysis :=
  let parsedFinal := urlparse (a.final_url.getD "")
  match parsedFinal.hostname with
  | none =>
    { a with is_suspicious := true
             suspicion_reasons := a.suspicion_reasons ++ ["INVALID_URL_NO_HOSTNAME"] }
  | some hostname =>
    let ipHit := isIpHostname hostname
    let ageResult := get_domain_age whoisO hostname
    let ageHit := match ageResult.1 with
      | some d => decide (d < 30)
      | none => false
    let tldHit := match (splitOnStr hostname '.').getLast? with
      | some tld => cfg.suspicious_tlds.contains tld
      | none => false
    let dotsHit := decide (4 ≤ countChar '.' hostname)
    let kwHit := keywordHit cfg.url_keywords parsedFinal.path parsedFinal.query
    let httpsMiss := !(parsedFinal.scheme == "https")
    let userHit := match parsedFinal.username with
      | some u => !(u == "")
      | none => false
    { a with
      is_suspicious := a.is_suspicious || ipHit || ageHit || tldHit || dotsHit
        || kwHit || userHit
      suspicion_reasons := a.suspicion_reasons
        ++ (if ipHit then ["IP_ADDRESS_IN_HOST"] else [])
        ++ ageResult.2
        ++ (if ageHit then ["DOMAIN_AGE_TOO_LOW"] else [])
        ++ (if tldHit then ["SUSPICIOUS_TLD"] else [])
        ++ (if dotsHit then ["EXCESSIVE_SUBDOMAINS"] else [])
        ++ (if kwHit then ["SUSPICIOUS_KEYWORDS_IN_URL"] else [])
        ++ (if httpsMiss then ["NOT_USING_HTTPS"] else [])
        ++ (if userHit then ["USERNAME_IN_URL"] else [])
      domain_age_days := match ageResult.1 with
        | some d => some d
        | none => a.domain_age_days }

/-- `_analyze_single_url` (src/urls.py:99-173), caches empty.  The shortener
test is Python's substring `in` on the netloc; when resolution yields a
falsy final URL (`None` or the empty string) the analysis returns early. -/
def analyzeSingleUrl (head : String → Option (Nat × Option String))
    (whoisO : String → WhoisOutcome) (cfg : UrlConfig) (url : String) :
    UrlAnalysis :=
  let a0 : UrlAnalysis :=
    { original_url := url, final_url := some url, is_suspicious := false
      suspicion_reasons := [], domain_age_days := none }
  let parsedOriginal := urlparse url
  if cfg.url_shorteners.any (fun s => strContainsStr parsedOriginal.netloc s) then
    let a1 := { a0 with is_suspicious := true
                        suspicion_reasons := a0.suspicion_reasons ++ ["USES_URL_SHORTENER"] }
    let r := resolve_url head url
    let a2 := { a1 with suspicion_reasons := a1.suspicion_reasons ++ r.2.1 }
    match r.1 with
    | some f => if f == "" then a2 else analyzeTail whoisO cfg { a2 with final_url := some f }
    | none => a2
  else
    analyzeTail whoisO cfg a0

/-! ## `src/attachments.py` — attachment inspection -/

/-- `os.path.splitext(p)[1]` (posix): the suffix starting at the last `.`
of the basename, provided some earlier basename character is not a dot. -/
def splitextExt (p : String) : String :=
  let base :=
    match breakAtLastChar '/' p.toList with
    | none => p.toList
    | some (_, after) => after
  match breakAtLastChar '.' base with
  | none => ""
  | some (before, after) =>
    if before.any (fun ch => ch ≠ '.') then ('.' :: after).asString else ""

/-- One MIME part as `analyze_attachments` observes it: its
`Content-Disposition` header, `get_filename()`, and the result of decoding
its payload and opening it as a zip archive (`some memberNames`, or `none`
when `zipfile` raises — the corrupt-archive case). -/
structure MimePart where
  contentDisposition : Option String := none
  filename : Option String := none
  zipNames : Option (List String) := none
deriving DecidableEq, Repr

/-- An email message as `analyze_attachments` observes it: the multipart
flag and the part sequence that `msg.walk()` yields (the container itself
first, then all descendant parts, flattened). -/
structure EmailMessage where
  isMultipart : Bool
  selfPart : MimePart
  subParts : List MimePart := []

/-- `Message.walk()`: on a non-multipart message it yields only the message
itself; `analyze_attachments` never reaches it in that case. -/
def walkParts (m : EmailMessage) : List MimePart :=
  if m.isMultipart then m.selfPart :: m.subParts else [m.selfPart]

/-- The result dictionary built per attachment (src/attachments.py:34-39). -/
structure AttachmentAnalysis where
  filename : String
  file_type : String
  is_dangerous : Bool
  contains_executable_in_zip : Bool
deriving DecidableEq, Repr

/-- The member loop of src/attachments.py:49-55: scan the zip member names
for the first whose lowercased extension is dangerous, `break`ing there.
Returns the verdict and — as instrumentation for the short-circuit
property — the number of members examined. -/
def zipScan (dangerous : List String) : List String → Bool × Nat
  | [] => (false, 0)
  | n :: rest =>
    if dangerous.contains (strLower (splitextExt n)) then (true, 1)
    else
      let r := zipScan dangerous rest
      (r.1, r.2 + 1)

/-- `part.get('Content-Disposition') and 'attachment' in part.get(...)`:
a present, truthy (non-empty) header that contains `attachment`. -/
def dispositionIsAttachment (p : MimePart) : Bool :=
  match p.contentDisposition with
  | none => false
  | some d => !(d == "") && strContainsStr d "attachment"

/-- The loop body of `analyze_attachments` for one walked part
(src/attachments.py:30-59): `some` analysis for attachment parts with a
truthy filename, `none` otherwise. -/
def analyzeOnePart (dangerous : List String) (p : MimePart) :
    Option AttachmentAnalysis :=
  if dispositionIsAttachment p then
    match p.filename with
    | some filename =>
      if filename == "" then none
      else
        let file_ext := strLower (splitextExt filename)
        let dangerousByExt := dangerous.contains file_ext
        let zipFound :=
          if file_ext == ".zip" then
            match p.zipNames with
            | some names => (zipScan dangerous names).1
            | none => false
          else false
        some { filename := filename
               file_type := file_ext
               is_dangerous := dangerousByExt || zipFound
               contains_executable_in_zip := zipFound }
    | none => none
  else none

/-- `analyze_attachments` (src/attachments.py:9-66), with the configured
`attachment_analysis.dangerous_extensions` list passed as `dangerous`. -/
def analyze_attachments (msg : EmailMessage) (dangerous : List String) :
    List AttachmentAnalysis :=
  if msg.isMultipart then (walkParts msg).filterMap (analyzeOnePart dangerous)
  else []

/-! ## `src/headers.py` — the DMARC check -/

/-- Outcome of `dns.resolver.resolve(name, 'TXT')` as `_check_dmarc`
distinguishes it: an answer (each record rendered by `to_wire()` and
modelled as a string), the caught exception classes, and the catch-all
`except Exception` branch. -/
inductive DnsOutcome where
  | answer (records : List String)
  | noAnswer
  | nxdomain
  | dnsTimeout
  | noNameservers
  | unexpectedFailure
deriving DecidableEq, Repr

/-- `_check_dmarc` (src/headers.py:73-92): result strings exactly as the
source returns them. -/
def check_dmarc (resolveTxt : String → DnsOutcome) (domain : String) : String :=
  if domain == "" then "not_found"
  else
    match resolveTxt ("_dmarc." ++ domain) with
    | .answer records =>
      if records.any (fun r => strContainsStr r "v=DMARC1") then "pass" else "fail"
    | .noAnswer => "not_found"
    | .nxdomain => "not_found"
    | .dnsTimeout => "dns_error"
    | .noNameservers => "dns_error"
    | .unexpectedFailure => "error"

/-! ## `src/scoring.py` — risk aggregation

`calculate_risk_score` receives loosely-typed dictionaries; the structures
below give each consulted key a field, with `dict.get` defaults (`none`,
`[]`, weight `0`) as field defaults.  Breakdown reasons are the source's
f-strings; `ScoreReason` keeps their variable part structured and
`ScoreReason.render` reproduces the exact Python text. -/

structure HeaderResults where
  spf_result : Option String := none
  dkim_result : Option String := none
  dmarc_result : Option String := none
  from_return_path_mismatch : Bool := false
deriving Repr

/-- A URL result as the scorer reads it (`url.get('suspicion_reasons', [])`,
`url.get('original_url')`, truthiness of `url.get('is_suspicious')`). -/
structure UrlResult where
  original_url : Option String := none
  is_suspicious : Bool := false
  suspicion_reasons : List String := []
deriving Repr

/-- An attachment result as the scorer reads it (`att['filename']` is a
mandatory key in the source). -/
structure AttachmentResult where
  filename : String
  is_dangerous : Bool := false
  contains_executable_in_zip : Bool := false
deriving Repr

structure HeaderWeights where
  spf_fail : Int := 0
  dkim_fail : Int := 0
  dmarc_fail : Int := 0
  from_return_path_mismatch : Int := 0
deriving Repr

structure UrlWeights where
  suspicious_domain : Int := 0
  shortened_url : Int := 0
  ip_address_url : Int := 0
deriving Repr

structure AttachmentWeights where
  dangerous_file_type : Int := 0
  zip_with_executable : Int := 0
deriving Repr

structure Weights where
  headers : HeaderWeights := {}
  urls : UrlWeights := {}
  attachments : AttachmentWeights := {}
deriving Repr

/-- Python's `str(x)` on an optional string (`None` renders as `"None"`
inside the f-strings). -/
def pyStrOfOpt : Option String → String
  | none => "None"
  | some s => s

/-- The reason slot of one breakdown entry, one constructor per
`score_breakdown.append` site in `calculate_risk_score`. -/
inductive ScoreReason where
  | spfFail
  | dkimFail
  | dmarcFail
  | fromReturnPathMismatch
  | suspiciousUrl (original_url : Option String)
  | shortenedUrl (original_url : Option String)
  | ipAddressUrl (original_url : Option String)
  | dangerousFileType (filename : String)
  | zipWithExecutable (filename : String)
deriving DecidableEq, Repr

/-- The exact reason text the source writes into the breakdown. -/
def ScoreReason.render : ScoreReason → String
  | .spfFail => "SPF Check Failed"
  | .dkimFail => "DKIM Check Failed"
  | .dmarcFail => "DMARC Check Failed"
  | .fromReturnPathMismatch => "From/Return-Path Mismatch"
  | .suspiciousUrl u => "Suspicious URL (" ++ pyStrOfOpt u ++ ")"
  | .shortenedUrl u => "URL is Shortened (" ++ pyStrOfOpt u ++ ")"
  | .ipAddressUrl u => "URL is IP Address (" ++ pyStrOfOpt u ++ ")"
  | .dangerousFileType f => "Dangerous Attachment Type (" ++ f ++ ")"
  | .zipWithExecutable f => "Zip Contains Executable (" ++ f ++ ")"

structure BreakdownEntry where
  reason : ScoreReason
  score : Int
deriving DecidableEq, Repr

/-- The repeated statement pair of `calculate_risk_score`:
`total_score += weight; score_breakdown.append(...)`, guarded by a
condition.  The running total and the breakdown are updated independently,
exactly as the two Python statements do. -/
def scoreStep (cond : Bool) (r : ScoreReason) (weight : Int)
    (acc : Int × List BreakdownEntry) : Int × List BreakdownEntry :=
  if cond then (acc.1 + weight, acc.2 ++ [⟨r, weight⟩]) else acc

/-- The header section of `calculate_risk_score` (src/scoring.py:30-42). -/
def headerPart (h : HeaderResults) (hw : HeaderWeights) :
    Int × List BreakdownEntry :=
  let acc := scoreStep (h.spf_result == some "fail") .spfFail hw.spf_fail (0, [])
  let acc := scoreStep (h.dkim_result == some "fail") .dkimFail hw.dkim_fail acc
  let acc := scoreStep (h.dmarc_result == some "fail") .dmarcFail hw.dmarc_fail acc
  scoreStep h.from_return_path_mismatch .fromReturnPathMismatch
    hw.from_return_path_mismatch acc

/-- One iteration of the URL loop (src/scoring.py:46-63).  The accumulator
carries the running total, the breakdown, and the `scored_urls` set
(a list queried only through membership). -/
def urlStep (uw : UrlWeights)
    (acc : Int × List BreakdownEntry × List (Option String)) (u : UrlResult) :
    Int × List BreakdownEntry × List (Option String) :=
  let afterSusp :=
    if u.is_suspicious && !(acc.2.2.contains u.original_url) then
      (acc.1 + uw.suspicious_domain,
       acc.2.1 ++ [⟨.suspiciousUrl u.original_url, uw.suspicious_domain⟩],
       acc.2.2 ++ [u.original_url])
    else acc
  let afterShort := scoreStep (u.suspicion_reasons.contains "USES_URL_SHORTENER")
    (.shortenedUrl u.original_url) uw.shortened_url (afterSusp.1, afterSusp.2.1)
  let afterIp := scoreStep (u.suspicion_reasons.contains "IP_ADDRESS_IN_HOST")
    (.ipAddressUrl u.original_url) uw.ip_address_url afterShort
  (afterIp.1, afterIp.2, afterSusp.2.2)

/-- One iteration of the attachment loop (src/scoring.py:67-73). -/
def attStep (aw : AttachmentWeights) (acc : Int × List BreakdownEntry)
    (att : AttachmentResult) : Int × List BreakdownEntry :=
  let acc := scoreStep att.is_dangerous (.dangerousFileType att.filename)
    aw.dangerous_file_type acc
  scoreStep att.contains_executable_in_zip (.zipWithExecutable att.filename)
    aw.zip_with_executable acc

structure ScoreResult where
  total_score : Int
  breakdown : List BreakdownEntry
deriving DecidableEq, Repr

/-- `calculate_risk_score` (src/scoring.py:5-82): header checks, the URL
loop with its `scored_urls` dedup set, the attachment loop, then
`final_score = min(total_score, 100)`. -/
def calculate_risk_score (h : HeaderResults) (url_results : List UrlResult)
    (attachment_results : List AttachmentResult) (weights : Weights) :
    ScoreResult :=
  let acc0 := headerPart h weights.headers
  let acc1 := url_results.foldl (urlStep weights.urls) (acc0.1, acc0.2, [])
  let acc2 := attachment_results.foldl (attStep weights.attachments)
    (acc1.1, acc1.2.1)
  { total_score := min acc2.1 100, breakdown := acc2.2 }

/-! ## `src/report.py` — risk-level derivation -/

/-- The risk-level mapping of `generate_report` (src/report.py:32-41),
applied to `score_results['total_score']`.  The thresholds are literals in
the source; no configuration reaches this computation. -/
def riskLevelOf (score : Int) : String :=
  if score > 80 then "High"
  else if score > 50 then "Medium"
  else if score > 20 then "Low"
  else "Very Low"

/-- Modelled from the spec: the risk-level step described in §4.5 — a
caller-configurable mapping over three ascending thresholds (the spec's
example: ≥ 80 High, ≥ 60 Medium, ≥ 30 Low, else Very Low).  No such
configurable mapping exists in `src/report.py`; this definition follows the
spec's words and is compared against `riskLevelOf`. -/
def riskLevelSpec (hiT midT loT : Int) (score : Int) : String :=
  if score ≥ hiT then "High"
  else if score ≥ midT then "Medium"
  else if score ≥ loT then "Low"
  else "Very Low"

/-! ## Measures and concrete inputs used by the theorems -/

/-- Sum of the `score` fields of a breakdown. -/
def sumScores (b : List BreakdownEntry) : Int :=
  (b.map BreakdownEntry.score).sum

/-- Number of breakdown entries whose reason satisfies `p`. -/
def countReason (p : ScoreReason → Bool) (b : List BreakdownEntry) : Nat :=
  b.countP (fun e => p e.reason)

/-- Selects the generic suspicious-URL entry for a given `original_url`. -/
def pSusp (u : Option String) : ScoreReason → Bool
  | .suspiciousUrl v => v == u
  | _ => false

/-- Selects shortened-URL entries. -/
def pShort : ScoreReason → Bool
  | .shortenedUrl _ => true
  | _ => false

/-- Selects IP-address-URL entries. -/
def pIp : ScoreReason → Bool
  | .ipAddressUrl _ => true
  | _ => false

def HeaderWeights.NonNeg (hw : HeaderWeights) : Prop :=
  0 ≤ hw.spf_fail ∧ 0 ≤ hw.dkim_fail ∧ 0 ≤ hw.dmarc_fail ∧
    0 ≤ hw.from_return_path_mismatch

def UrlWeights.NonNeg (uw : UrlWeights) : Prop :=
  0 ≤ uw.suspicious_domain ∧ 0 ≤ uw.shortened_url ∧ 0 ≤ uw.ip_address_url

def AttachmentWeights.NonNeg (aw : AttachmentWeights) : Prop :=
  0 ≤ aw.dangerous_file_type ∧ 0 ≤ aw.zip_with_executable

/-- All nine configured weights are nonnegative. -/
def Weights.NonNeg (w : Weights) : Prop :=
  w.headers.NonNeg ∧ w.urls.NonNeg ∧ w.attachments.NonNeg

/-- A session whose every response is a `301` redirect. -/
def headAlwaysRedirect : String → Option (Nat × Option String) :=
  fun _ => some (301, some "http://hop.example/")

/-- A session whose every response is a plain `200`. -/
def headPlain : String → Option (Nat × Option String) :=
  fun _ => some (200, none)

/-- A WHOIS oracle reporting a comfortably old domain. -/
def whoisOld : String → WhoisOutcome :=
  fun _ => .age 1000

/-- A URL configuration with one shortener domain configured. -/
def cfgShort : UrlConfig :=
  { url_shorteners := ["bit.ly"] }

/-- A non-multipart message whose sole part looks exactly like an
attachment. -/
def soloAttachmentMsg : EmailMessage :=
  { isMultipart := false
    selfPart := { contentDisposition := some "attachment; filename=evil.exe"
                  filename := some "evil.exe" } }

/-- A multipart message carrying a zip attachment with a dangerous member
followed by further members. -/
def zipAttachmentMsg : EmailMessage :=
  { isMultipart := true
    selfPart := {}
    subParts := [{ contentDisposition := some "attachment; filename=invoice.zip"
                   filename := some "invoice.zip"
                   zipNames := some ["readme.txt", "payload.js", "more.txt"] }] }

/-! ## Helper lemmas -/

theorem mem_ite_singleton {α : Type} (x y : α) (c : Prop) [Decidable c] :
    x ∈ (if c then [y] else []) ↔ c ∧ x = y := by
  by_cases hc : c <;> simp [hc]

theorem listStartsWith_iff (hay pat : List Char) :
    listStartsWith hay pat = true ↔ ∃ t, hay = pat ++ t := by
  induction pat generalizing hay with
  | nil => simp [listStartsWith]
  | cons p ps ih =>
    cases hay with
    | nil => simp [listStartsWith]
    | cons h hs =>
      simp [listStartsWith, ih]

theorem listIsSubstr_iff (pat hay : List Char) :
    listIsSubstr pat hay = true ↔ ∃ pre post, hay = pre ++ pat ++ post := by
  induction hay with
  | nil =>
    simp only [listIsSubstr, List.isEmpty_iff]
    constructor
    · intro h
      exact ⟨[], [], by simp [h]⟩
    · rintro ⟨pre, post, h⟩
      have h' := h.symm
      simp only [List.append_assoc, List.append_eq_nil] at h'
      exact h'.2.1
  | cons c rest ih =>
    simp only [listIsSubstr, Bool.or_eq_true, listStartsWith_iff, ih]
    constructor
    · rintro (⟨t, ht⟩ | ⟨pre, post, h⟩)
      · exact ⟨[], t, by simpa using ht⟩
      · exact ⟨c :: pre, post, by simp [h]⟩
    · rintro ⟨pre, post, h⟩
      cases pre with
      | nil => exact Or.inl ⟨post, by simpa using h⟩
      | cons x xs =>
        simp only [List.cons_append, List.cons.injEq] at h
        exact Or.inr ⟨xs, post, h.2⟩

theorem strContainsStr_iff (hay pat : String) :
    strContainsStr hay pat = true ↔
      ∃ pre post, hay.toList = pre ++ pat.toList ++ post := by
  exact listIsSubstr_iff pat.toList hay.toList

/-! ## Claim C7 — risk-level derivation -/

/-- Claim C7, counterexample: the claim says `risk_level` is derived from
caller-configured ascending thresholds, but `generate_report` hardcodes the
mapping: at score 80 the code yields `Medium` while the spec's own example
configuration (≥ 80 High, ≥ 60 Medium, ≥ 30 Low) yields `High`, so the
code's mapping is not the configured one. -/
theorem risk_level_ignores_configured_thresholds :
    riskLevelOf 80 = "Medium" ∧ riskLevelSpec 80 60 30 80 = "High" := by
  constructor <;> rfl

/-- Claim C7, amended: the `risk_level` of the produced report is computed
from `total_score` by the fixed mapping hardcoded in `generate_report` —
strictly above 80 High, strictly above 50 Medium, strictly above 20 Low,
otherwise Very Low; configuration plays no part in it. -/
theorem risk_level_hardcoded_mapping (s : Int) :
    (80 < s → riskLevelOf s = "High") ∧
    (50 < s → s ≤ 80 → riskLevelOf s = "Medium") ∧
    (20 < s → s ≤ 50 → riskLevelOf s = "Low") ∧
    (s ≤ 20 → riskLevelOf s = "Very Low") := by
  refine ⟨fun h => ?_, fun h h2 => ?_, fun h h2 => ?_, fun h => ?_⟩ <;>
    unfold riskLevelOf <;> split_ifs <;> first | rfl | (exfalso; omega)

/-- Witness for `risk_level_hardcoded_mapping` at concrete scores. -/
theorem risk_level_hardcoded_mapping_witness :
    riskLevelOf 81 = "High" ∧ riskLevelOf 51 = "Medium" ∧
      riskLevelOf 21 = "Low" ∧ riskLevelOf 0 = "Very Low" :=
  ⟨(risk_level_hardcoded_mapping 81).1 (by decide),
   (risk_level_hardcoded_mapping 51).2.1 (by decide) (by decide),
   (risk_level_hardcoded_mapping 21).2.2.1 (by decide) (by decide),
   (risk_level_hardcoded_mapping 0).2.2.2 (by decide)⟩

/-! ## Claim C9 — attachments of non-multipart messages -/

/-- Claim C9: for every non-multipart email message, `analyze_attachments`
returns the empty list — attachment findings are only produced for parts of
multipart messages, even when the message's single part carries an
attachment Content-Disposition and a filename. -/
theorem non_multipart_yields_no_findings (msg : EmailMessage)
    (dangerous : List String) (hm : msg.isMultipart = false) :
    analyze_attachments msg dangerous = [] := by
  simp [analyze_attachments, hm]

/-- Witness for `non_multipart_yields_no_findings`: a non-multipart message
whose sole part carries an attachment disposition and a filename still
yields no findings. -/
theorem non_multipart_yields_no_findings_witness :
    analyze_attachments soloAttachmentMsg [".exe"] = [] ∧
      dispositionIsAttachment soloAttachmentMsg.selfPart = true ∧
      soloAttachmentMsg.selfPart.filename = some "evil.exe" :=
  ⟨non_multipart_yields_no_findings soloAttachmentMsg [".exe"] rfl,
   by decide, by decide⟩

/-! ## Claim C5 — DMARC outcome mapping -/

/-- Claim C5, counterexample: the claim says the DMARC check returns
exactly one of the four outcomes `pass`/`fail`/`not_found`/`dns_error`, but
when the resolver raises an unexpected exception (the catch-all
`except Exception` branch of `_check_dmarc`) the check returns a fifth
value, `error`. -/
theorem dmarc_unexpected_failure_fifth_outcome :
    check_dmarc (fun _ => DnsOutcome.unexpectedFailure) "example.com" = "error" ∧
      "error" ≠ "pass" ∧ "error" ≠ "fail" ∧
      "error" ≠ "not_found" ∧ "error" ≠ "dns_error" :=
  ⟨rfl, by decide, by decide, by decide, by decide⟩

/-- Claim C5, amended: for every non-empty From-domain the DMARC check maps
resolver outcomes as claimed — an answer containing the DMARC version tag
yields `pass`, an answer whose records all lack the tag yields `fail`,
NXDOMAIN or an empty answer yields `not_found`, a DNS timeout or server
failure yields `dns_error` — and additionally an unexpected resolver
failure yields a fifth outcome, `error`. -/
theorem dmarc_outcome_mapping (resolveTxt : String → DnsOutcome)
    (domain : String) (hd : domain ≠ "") :
    (∀ records, resolveTxt ("_dmarc." ++ domain) = .answer records →
        check_dmarc resolveTxt domain =
          (if records.any (fun r => strContainsStr r "v=DMARC1") then "pass"
           else "fail")) ∧
    (resolveTxt ("_dmarc." ++ domain) = .noAnswer →
        check_dmarc resolveTxt domain = "not_found") ∧
    (resolveTxt ("_dmarc." ++ domain) = .nxdomain →
        check_dmarc resolveTxt domain = "not_found") ∧
    (resolveTxt ("_dmarc." ++ domain) = .dnsTimeout →
        check_dmarc resolveTxt domain = "dns_error") ∧
    (resolveTxt ("_dmarc." ++ domain) = .noNameservers →
        check_dmarc resolveTxt domain = "dns_error") ∧
    (resolveTxt ("_dmarc." ++ domain) = .unexpectedFailure →
        check_dmarc resolveTxt domain = "error") := by
  have hd' : (domain == "") = false := by simpa using hd
  refine ⟨fun records h => ?_, fun h => ?_, fun h => ?_, fun h => ?_,
    fun h => ?_, fun h => ?_⟩ <;> simp [check_dmarc, hd', h]

/-- Witness for `dmarc_outcome_mapping`: a record carrying the version tag
yields `pass`. -/
theorem dmarc_outcome_mapping_witness :
    check_dmarc (fun _ => DnsOutcome.answer ["v=DMARC1; p=none"])
      "example.com" = "pass" := by
  rw [(dmarc_outcome_mapping (fun _ => DnsOutcome.answer ["v=DMARC1; p=none"])
    "example.com" (by decide)).1 ["v=DMARC1; p=none"] rfl]
  decide

/-! ## Scoring lemmas -/

theorem scoreStep_sum (c : Bool) (r : ScoreReason) (w : Int)
    (acc : Int × List BreakdownEntry) (hacc : acc.1 = sumScores acc.2) :
    (scoreStep c r w acc).1 = sumScores (scoreStep c r w acc).2 := by
  unfold scoreStep
  split
  · simp [sumScores, hacc]
  · exact hacc

theorem scoreStep_mono (c : Bool) (r : ScoreReason) (w : Int)
    (acc : Int × List BreakdownEntry) (hw : 0 ≤ w) :
    acc.1 ≤ (scoreStep c r w acc).1 := by
  unfold scoreStep
  split
  · simp
    omega
  · exact le_refl _

theorem urlStep_sum (uw : UrlWeights)
    (acc : Int × List BreakdownEntry × List (Option String)) (u : UrlResult)
    (hacc : acc.1 = sumScores acc.2.1) :
    (urlStep uw acc u).1 = sumScores (urlStep uw acc u).2.1 := by
  unfold urlStep
  apply scoreStep_sum
  apply scoreStep_sum
  show (if _ then _ else acc).1 = sumScores (if _ then _ else acc).2.1
  split
  · simp [sumScores, hacc]
  · exact hacc

theorem attStep_sum (aw : AttachmentWeights) (acc : Int × List BreakdownEntry)
    (att : AttachmentResult) (hacc : acc.1 = sumScores acc.2) :
    (attStep aw acc att).1 = sumScores (attStep aw acc att).2 :=
  scoreStep_sum _ _ _ _ (scoreStep_sum _ _ _ _ hacc)

theorem headerPart_sum (h : HeaderResults) (hw : HeaderWeights) :
    (headerPart h hw).1 = sumScores (headerPart h hw).2 :=
  scoreStep_sum _ _ _ _ (scoreStep_sum _ _ _ _ (scoreStep_sum _ _ _ _
    (scoreStep_sum _ _ _ _ (by simp [sumScores]))))

theorem foldl_urlStep_sum (uw : UrlWeights) (urls : List UrlResult) :
    ∀ acc : Int × List BreakdownEntry × List (Option String),
      acc.1 = sumScores acc.2.1 →
      (urls.foldl (urlStep uw) acc).1 =
        sumScores (urls.foldl (urlStep uw) acc).2.1 := by
  induction urls with
  | nil => intro acc h; exact h
  | cons u rest ih =>
    intro acc h
    exact ih (urlStep uw acc u) (urlStep_sum uw acc u h)

theorem foldl_attStep_sum (aw : AttachmentWeights)
    (atts : List AttachmentResult) :
    ∀ acc : Int × List BreakdownEntry, acc.1 = sumScores acc.2 →
      (atts.foldl (attStep aw) acc).1 =
        sumScores (atts.foldl (attStep aw) acc).2 := by
  induction atts with
  | nil => intro acc h; exact h
  | cons a rest ih =>
    intro acc h
    exact ih (attStep aw acc a) (attStep_sum aw acc a h)

theorem urlStep_mono (uw : UrlWeights)
    (acc : Int × List BreakdownEntry × List (Option String)) (u : UrlResult)
    (hnn : uw.NonNeg) : acc.1 ≤ (urlStep uw acc u).1 := by
  obtain ⟨h1, h2, h3⟩ := hnn
  unfold urlStep
  refine le_trans ?_ (le_trans (scoreStep_mono _ _ _ _ h2)
    (scoreStep_mono _ _ _ _ h3))
  show acc.1 ≤ (if _ then _ else acc).1
  split
  · simp
    omega
  · exact le_refl _

theorem attStep_mono (aw : AttachmentWeights) (acc : Int × List BreakdownEntry)
    (att : AttachmentResult) (hnn : aw.NonNeg) :
    acc.1 ≤ (attStep aw acc att).1 :=
  le_trans (scoreStep_mono _ _ _ _ hnn.1) (scoreStep_mono _ _ _ _ hnn.2)

theorem headerPart_nonneg (h : HeaderResults) (hw : HeaderWeights)
    (hnn : hw.NonNeg) : 0 ≤ (headerPart h hw).1 := by
  obtain ⟨h1, h2, h3, h4⟩ := hnn
  exact le_trans (le_trans (le_trans (le_trans (le_refl (0 : Int))
    (scoreStep_mono _ _ _ (0, []) h1)) (scoreStep_mono _ _ _ _ h2))
    (scoreStep_mono _ _ _ _ h3)) (scoreStep_mono _ _ _ _ h4)

theorem foldl_urlStep_mono (uw : UrlWeights) (urls : List UrlResult)
    (hnn : uw.NonNeg) :
    ∀ acc : Int × List BreakdownEntry × List (Option String),
      acc.1 ≤ (urls.foldl (urlStep uw) acc).1 := by
  induction urls with
  | nil => intro acc; exact le_refl _
  | cons u rest ih =>
    intro acc
    exact le_trans (urlStep_mono uw acc u hnn) (ih (urlStep uw acc u))

theorem foldl_attStep_mono (aw : AttachmentWeights)
    (atts : List AttachmentResult) (hnn : aw.NonNeg) :
    ∀ acc : Int × List BreakdownEntry,
      acc.1 ≤ (atts.foldl (attStep aw) acc).1 := by
  induction atts with
  | nil => intro acc; exact le_refl _
  | cons a rest ih =>
    intro acc
    exact le_trans (attStep_mono aw acc a hnn) (ih (attStep aw acc a))

/-! ## Claim C8 — the breakdown audits the total -/

/-- Claim C8: for every input, the returned `total_score` equals the sum of
the `score` fields of the returned breakdown, capped at 100 — every unit
added to the running total is recorded as a breakdown entry carrying the
same weight. -/
theorem total_equals_capped_breakdown_sum (h : HeaderResults)
    (urls : List UrlResult) (atts : List AttachmentResult) (w : Weights) :
    (calculate_risk_score h urls atts w).total_score =
      min (sumScores (calculate_risk_score h urls atts w).breakdown) 100 := by
  have h1 := foldl_urlStep_sum w.urls urls
    ((headerPart h w.headers).1, (headerPart h w.headers).2, [])
    (headerPart_sum h w.headers)
  have h2 := foldl_attStep_sum w.attachments atts
    ((urls.foldl (urlStep w.urls)
        ((headerPart h w.headers).1, (headerPart h w.headers).2, [])).1,
     (urls.foldl (urlStep w.urls)
        ((headerPart h w.headers).1, (headerPart h w.headers).2, [])).2.1)
    h1
  exact congrArg (fun t => min t 100) h2

/-! ## Claim C1 — score bounds -/

/-- Claim C1, counterexample: the claim says the total is clamped at both
ends for every weights configuration, including negative configured
weights; but `calculate_risk_score` caps only at 100 (`min(total, 100)`),
so a negative configured weight drives the returned total below 0. -/
theorem negative_weight_breaks_lower_bound :
    (calculate_risk_score { spf_result := some "fail" } [] []
        { headers := { spf_fail := -5 } }).total_score = -5 ∧ (-5 : Int) < 0 :=
  ⟨by decide, by decide⟩

/-- Claim C1, amended: for every configuration whose nine weights are all
nonnegative, and every combination of header, URL, and attachment findings,
the returned `total_score` lies in [0, 100]: contributions only add, and
the final total is capped above at 100.  (The code applies no lower clamp,
so the restriction to nonnegative weights is necessary.) -/
theorem risk_score_bounds_for_nonneg_weights (h : HeaderResults)
    (urls : List UrlResult) (atts : List AttachmentResult) (w : Weights)
    (hnn : w.NonNeg) :
    0 ≤ (calculate_risk_score h urls atts w).total_score ∧
      (calculate_risk_score h urls atts w).total_score ≤ 100 := by
  obtain ⟨hh, hu, ha⟩ := hnn
  have h0 : (0 : Int) ≤ (headerPart h w.headers).1 :=
    headerPart_nonneg h w.headers hh
  have h1 := foldl_urlStep_mono w.urls urls hu
    ((headerPart h w.headers).1, (headerPart h w.headers).2, [])
  have h2 := foldl_attStep_mono w.attachments atts ha
    ((urls.foldl (urlStep w.urls)
        ((headerPart h w.headers).1, (headerPart h w.headers).2, [])).1,
     (urls.foldl (urlStep w.urls)
        ((headerPart h w.headers).1, (headerPart h w.headers).2, [])).2.1)
  exact ⟨le_min (le_trans (le_trans h0 h1) h2) (by norm_num),
    min_le_right _ _⟩

/-- Witness for `risk_score_bounds_for_nonneg_weights` on concrete findings
and all-positive weights. -/
theorem risk_score_bounds_witness :
    0 ≤ (calculate_risk_score { spf_result := some "fail" }
        [{ original_url := some "http://bit.ly/x", is_suspicious := true,
           suspicion_reasons := ["USES_URL_SHORTENER"] }]
        [{ filename := "a.exe", is_dangerous := true }]
        { headers := { spf_fail := 20 },
          urls := { suspicious_domain := 30, shortened_url := 25 },
          attachments := { dangerous_file_type := 40 } }).total_score ∧
      (calculate_risk_score { spf_result := some "fail" }
        [{ original_url := some "http://bit.ly/x", is_suspicious := true,
           suspicion_reasons := ["USES_URL_SHORTENER"] }]
        [{ filename := "a.exe", is_dangerous := true }]
        { headers := { spf_fail := 20 },
          urls := { suspicious_domain := 30, shortened_url := 25 },
          attachments := { dangerous_file_type := 40 } }).total_score ≤ 100 :=
  risk_score_bounds_for_nonneg_weights _ _ _ _
    ⟨⟨by decide, by decide, by decide, by decide⟩,
     ⟨by decide, by decide, by decide⟩, ⟨by decide, by decide⟩⟩

/-! ## Counting lemmas for the URL dedup invariant -/

theorem contains_append_singleton {α : Type} [BEq α] (l : List α) (x u : α) :
    (l ++ [x]).contains u = (l.contains u || u == x) := by
  induction l with
  | nil => simp
  | cons a l ih => simp [ih, Bool.or_assoc]

theorem countReason_scoreStep (p : ScoreReason → Bool) (c : Bool)
    (r : ScoreReason) (w : Int) (acc : Int × List BreakdownEntry) :
    countReason p (scoreStep c r w acc).2 =
      countReason p acc.2 + (if c && p r then 1 else 0) := by
  unfold scoreStep
  cases c with
  | false => simp
  | true =>
    cases hp : p r <;>
      simp [countReason, List.countP_append, List.countP_cons, hp]

theorem urlStep_scored (uw : UrlWeights)
    (acc : Int × List BreakdownEntry × List (Option String)) (r : UrlResult) :
    (urlStep uw acc r).2.2 =
      (if r.is_suspicious && !(acc.2.2.contains r.original_url) then
        acc.2.2 ++ [r.original_url] else acc.2.2) := by
  unfold urlStep
  split <;> rfl

theorem urlStep_countSusp (uw : UrlWeights)
    (acc : Int × List BreakdownEntry × List (Option String)) (r : UrlResult)
    (u : Option String) :
    countReason (pSusp u) (urlStep uw acc r).2.1 =
      countReason (pSusp u) acc.2.1 +
        (if (r.is_suspicious && !(acc.2.2.contains r.original_url))
            && (r.original_url == u) then 1 else 0) := by
  unfold urlStep
  rw [countReason_scoreStep, countReason_scoreStep]
  simp only [pSusp, Bool.and_false, if_false]
  split
  · next hg =>
    rw [hg, Bool.true_and]
    simp only [countReason, List.countP_append, List.countP_cons,
      List.countP_nil, pSusp]
    simp
  · next hg =>
    have hg' : (r.is_suspicious && !(acc.2.2.contains r.original_url)) = false :=
      Bool.eq_false_iff.mpr hg
    rw [hg', Bool.false_and]
    simp

theorem urlStep_dedup_invariant (uw : UrlWeights) (u : Option String)
    (acc : Int × List BreakdownEntry × List (Option String)) (r : UrlResult)
    (h1 : countReason (pSusp u) acc.2.1 ≤ 1)
    (h2 : acc.2.2.contains u = false → countReason (pSusp u) acc.2.1 = 0) :
    countReason (pSusp u) (urlStep uw acc r).2.1 ≤ 1 ∧
      ((urlStep uw acc r).2.2.contains u = false →
        countReason (pSusp u) (urlStep uw acc r).2.1 = 0) := by
  rw [urlStep_countSusp, urlStep_scored]
  by_cases hg : (r.is_suspicious && !(acc.2.2.contains r.original_url)) = true
  · rw [hg, Bool.true_and, if_pos (show (true : Bool) = true from rfl)]
    cases hu : (r.original_url == u) with
    | false =>
      refine ⟨by simpa using h1, fun hc => ?_⟩
      rw [contains_append_singleton] at hc
      have hc1 : acc.2.2.contains u = false := by
        rcases Bool.or_eq_false_iff.mp hc with ⟨hca, _⟩
        exact hca
      simp [h2 hc1]
    | true =>
      have hequ : r.original_url = u := by simpa using hu
      have hcf : acc.2.2.contains u = false := by
        have hnc := (Bool.and_eq_true_iff.mp hg).2
        rw [← hequ]
        simpa using hnc
      constructor
      · rw [h2 hcf]
        simp
      · intro hc
        rw [contains_append_singleton] at hc
        rcases Bool.or_eq_false_iff.mp hc with ⟨_, hub⟩
        rw [hequ] at hub
        simp at hub
  · have hg' : (r.is_suspicious && !(acc.2.2.contains r.original_url)) = false :=
      Bool.eq_false_iff.mpr hg
    rw [hg', Bool.false_and, if_neg (by simp [hg'])]
    refine ⟨by simpa using h1, fun hc => by simpa using h2 hc⟩

theorem foldl_urlStep_dedup (uw : UrlWeights) (u : Option String)
    (urls : List UrlResult) :
    ∀ acc : Int × List BreakdownEntry × List (Option String),
      countReason (pSusp u) acc.2.1 ≤ 1 →
      (acc.2.2.contains u = false → countReason (pSusp u) acc.2.1 = 0) →
      countReason (pSusp u) (urls.foldl (urlStep uw) acc).2.1 ≤ 1 := by
  induction urls with
  | nil => exact fun acc h1 _ => h1
  | cons r rest ih =>
    intro acc h1 h2
    have step := urlStep_dedup_invariant uw u acc r h1 h2
    exact ih (urlStep uw acc r) step.1 step.2

theorem urlStep_countSpecific (p : ScoreReason → Bool) (uw : UrlWeights)
    (acc : Int × List BreakdownEntry × List (Option String)) (r : UrlResult)
    (hsusp : ∀ v, p (.suspiciousUrl v) = false) :
    countReason p (urlStep uw acc r).2.1 =
      countReason p acc.2.1
        + (if r.suspicion_reasons.contains "USES_URL_SHORTENER"
              && p (.shortenedUrl r.original_url) then 1 else 0)
        + (if r.suspicion_reasons.contains "IP_ADDRESS_IN_HOST"
              && p (.ipAddressUrl r.original_url) then 1 else 0) := by
  unfold urlStep
  rw [countReason_scoreStep, countReason_scoreStep]
  have hsame : countReason p
      (if r.is_suspicious && !(acc.2.2.contains r.original_url) then
        (acc.1 + uw.suspicious_domain,
         acc.2.1 ++ [⟨.suspiciousUrl r.original_url, uw.suspicious_domain⟩],
         acc.2.2 ++ [r.original_url])
       else acc).2.1 = countReason p acc.2.1 := by
    split <;>
      simp [countReason, List.countP_append, List.countP_cons, hsusp]
  rw [hsame]

theorem urlStep_countShort (uw : UrlWeights)
    (acc : Int × List BreakdownEntry × List (Option String)) (r : UrlResult) :
    countReason pShort (urlStep uw acc r).2.1 =
      countReason pShort acc.2.1 +
        (if r.suspicion_reasons.contains "USES_URL_SHORTENER" then 1 else 0) := by
  rw [urlStep_countSpecific pShort uw acc r (fun v => rfl)]
  simp [pShort]

theorem urlStep_countIp (uw : UrlWeights)
    (acc : Int × List BreakdownEntry × List (Option String)) (r : UrlResult) :
    countReason pIp (urlStep uw acc r).2.1 =
      countReason pIp acc.2.1 +
        (if r.suspicion_reasons.contains "IP_ADDRESS_IN_HOST" then 1 else 0) := by
  rw [urlStep_countSpecific pIp uw acc r (fun v => rfl)]
  simp [pIp]

theorem foldl_urlStep_countShort (uw : UrlWeights) (urls : List UrlResult) :
    ∀ acc : Int × List BreakdownEntry × List (Option String),
      countReason pShort (urls.foldl (urlStep uw) acc).2.1 =
        countReason pShort acc.2.1 +
          urls.countP (fun r => r.suspicion_reasons.contains "USES_URL_SHORTENER") := by
  induction urls with
  | nil => intro acc; simp
  | cons r rest ih =>
    intro acc
    simp only [List.foldl_cons, List.countP_cons]
    rw [ih, urlStep_countShort]
    omega

theorem foldl_urlStep_countIp (uw : UrlWeights) (urls : List UrlResult) :
    ∀ acc : Int × List BreakdownEntry × List (Option String),
      countReason pIp (urls.foldl (urlStep uw) acc).2.1 =
        countReason pIp acc.2.1 +
          urls.countP (fun r => r.suspicion_reasons.contains "IP_ADDRESS_IN_HOST") := by
  induction urls with
  | nil => intro acc; simp
  | cons r rest ih =>
    intro acc
    simp only [List.foldl_cons, List.countP_cons]
    rw [ih, urlStep_countIp]
    omega

theorem headerPart_count_urlKind (p : ScoreReason → Bool) (h : HeaderResults)
    (hw : HeaderWeights) (h1 : p .spfFail = false) (h2 : p .dkimFail = false)
    (h3 : p .dmarcFail = false) (h4 : p .fromReturnPathMismatch = false) :
    countReason p (headerPart h hw).2 = 0 := by
  unfold headerPart
  rw [countReason_scoreStep, countReason_scoreStep, countReason_scoreStep,
    countReason_scoreStep]
  simp [h1, h2, h3, h4, countReason]

theorem attStep_count_urlKind (p : ScoreReason → Bool) (aw : AttachmentWeights)
    (acc : Int × List BreakdownEntry) (att : AttachmentResult)
    (h1 : ∀ f, p (.dangerousFileType f) = false)
    (h2 : ∀ f, p (.zipWithExecutable f) = false) :
    countReason p (attStep aw acc att).2 = countReason p acc.2 := by
  unfold attStep
  rw [countReason_scoreStep, countReason_scoreStep]
  simp [h1, h2]

theorem foldl_attStep_count_urlKind (p : ScoreReason → Bool)
    (aw : AttachmentWeights) (atts : List AttachmentResult)
    (h1 : ∀ f, p (.dangerousFileType f) = false)
    (h2 : ∀ f, p (.zipWithExecutable f) = false) :
    ∀ acc : Int × List BreakdownEntry,
      countReason p (atts.foldl (attStep aw) acc).2 = countReason p acc.2 := by
  induction atts with
  | nil => intro acc; rfl
  | cons a rest ih =>
    intro acc
    simp only [List.foldl_cons]
    rw [ih (attStep aw acc a), attStep_count_urlKind p aw acc a h1 h2]

/-! ## Claim C3 — URL scoring dedup invariant -/

/-- Claim C3: in every run of `calculate_risk_score`, the generic
`suspicious_domain` contribution appears in the breakdown (and hence in the
total, since each entry carries the weight it added) at most once per
distinct `original_url` value, even when one finding is suspicious for
several reasons or the same `original_url` occurs in several findings;
independently, the `shortened_url` and `ip_address_url` contributions
appear exactly once per finding whose reason set contains
`USES_URL_SHORTENER` resp. `IP_ADDRESS_IN_HOST`. -/
theorem suspicious_domain_dedup_and_specific_counts (h : HeaderResults)
    (urls : List UrlResult) (atts : List AttachmentResult) (w : Weights) :
    (∀ u : Option String,
        countReason (pSusp u) (calculate_risk_score h urls atts w).breakdown ≤ 1) ∧
    countReason pShort (calculate_risk_score h urls atts w).breakdown =
      urls.countP (fun r => r.suspicion_reasons.contains "USES_URL_SHORTENER") ∧
    countReason pIp (calculate_risk_score h urls atts w).breakdown =
      urls.countP (fun r => r.suspicion_reasons.contains "IP_ADDRESS_IN_HOST") := by
  refine ⟨fun u => ?_, ?_, ?_⟩
  · have hbase0 : countReason (pSusp u) (headerPart h w.headers).2 = 0 :=
      headerPart_count_urlKind (pSusp u) h w.headers rfl rfl rfl rfl
    have hb1 : countReason (pSusp u)
        ((headerPart h w.headers).1, (headerPart h w.headers).2,
          ([] : List (Option String))).2.1 ≤ 1 := by
      show countReason (pSusp u) (headerPart h w.headers).2 ≤ 1
      simp [hbase0]
    have hb2 : (((headerPart h w.headers).1, (headerPart h w.headers).2,
          ([] : List (Option String))).2.2.contains u = false) →
        countReason (pSusp u)
          ((headerPart h w.headers).1, (headerPart h w.headers).2,
            ([] : List (Option String))).2.1 = 0 :=
      fun _ => hbase0
    have hfold := foldl_urlStep_dedup w.urls u urls
      ((headerPart h w.headers).1, (headerPart h w.headers).2, []) hb1 hb2
    have hatt := foldl_attStep_count_urlKind (pSusp u) w.attachments atts
      (fun f => rfl) (fun f => rfl)
      ((urls.foldl (urlStep w.urls)
          ((headerPart h w.headers).1, (headerPart h w.headers).2, [])).1,
       (urls.foldl (urlStep w.urls)
          ((headerPart h w.headers).1, (headerPart h w.headers).2, [])).2.1)
    exact le_trans (le_of_eq hatt) hfold
  · have hbase0 : countReason pShort (headerPart h w.headers).2 = 0 :=
      headerPart_count_urlKind pShort h w.headers rfl rfl rfl rfl
    have hfold := foldl_urlStep_countShort w.urls urls
      ((headerPart h w.headers).1, (headerPart h w.headers).2, [])
    have hatt := foldl_attStep_count_urlKind pShort w.attachments atts
      (fun f => rfl) (fun f => rfl)
      ((urls.foldl (urlStep w.urls)
          ((headerPart h w.headers).1, (headerPart h w.headers).2, [])).1,
       (urls.foldl (urlStep w.urls)
          ((headerPart h w.headers).1, (headerPart h w.headers).2, [])).2.1)
    refine hatt.trans (hfold.trans ?_)
    show countReason pShort (headerPart h w.headers).2 + _ = _
    rw [hbase0, Nat.zero_add]
  · have hbase0 : countReason pIp (headerPart h w.headers).2 = 0 :=
      headerPart_count_urlKind pIp h w.headers rfl rfl rfl rfl
    have hfold := foldl_urlStep_countIp w.urls urls
      ((headerPart h w.headers).1, (headerPart h w.headers).2, [])
    have hatt := foldl_attStep_count_urlKind pIp w.attachments atts
      (fun f => rfl) (fun f => rfl)
      ((urls.foldl (urlStep w.urls)
          ((headerPart h w.headers).1, (headerPart h w.headers).2, [])).1,
       (urls.foldl (urlStep w.urls)
          ((headerPart h w.headers).1, (headerPart h w.headers).2, [])).2.1)
    refine hatt.trans (hfold.trans ?_)
    show countReason pIp (headerPart h w.headers).2 + _ = _
    rw [hbase0, Nat.zero_add]

/-! ## Claim C2 — redirect-hop limit -/

theorem resolveUrlAux_hops_le (head : String → Option (Nat × Option String)) :
    ∀ (fuel : Nat) (cur : String), (resolveUrlAux head fuel cur).2.2 ≤ fuel := by
  intro fuel
  induction fuel with
  | zero => intro cur; simp [resolveUrlAux]
  | succ n ih =>
    intro cur
    cases hh : head cur with
    | none => simp [resolveUrlAux, hh]
    | some sp =>
      obtain ⟨status, locHdr⟩ := sp
      cases locHdr with
      | none =>
        simp only [resolveUrlAux, hh]
        split <;> simp
      | some loc =>
        simp only [resolveUrlAux, hh]
        split
        · simpa using Nat.succ_le_succ (ih loc)
        · simp

theorem resolveUrlAux_allRedirect (head : String → Option (Nat × Option String))
    (hredir : ∀ u, ∃ s l, head u = some (s, some l) ∧ 300 ≤ s ∧ s < 400) :
    ∀ (fuel : Nat) (cur : String),
      resolveUrlAux head fuel cur = (none, ["TOO_MANY_REDIRECTS"], fuel) := by
  intro fuel
  induction fuel with
  | zero => intro cur; rfl
  | succ n ih =>
    intro cur
    obtain ⟨s, l, hh, h1, h2⟩ := hredir cur
    simp only [resolveUrlAux, hh]
    rw [if_pos ⟨h1, h2⟩]
    simp [ih l]

/-- Claim C2, counterexample: with a shortener-matched URL and a session
that always answers with a redirect, the hop limit is exceeded and
`TOO_MANY_REDIRECTS` is recorded, but the finding's `final_url` is the
original URL, not `None` — only `_resolve_url`'s internal result is `None`;
`_analyze_single_url` leaves the initialized `final_url` untouched. -/
theorem redirect_limit_keeps_original_final_url :
    (analyzeSingleUrl headAlwaysRedirect whoisOld cfgShort
        "http://bit.ly/abc").final_url = some "http://bit.ly/abc" ∧
    (analyzeSingleUrl headAlwaysRedirect whoisOld cfgShort
        "http://bit.ly/abc").final_url ≠ none ∧
    "TOO_MANY_REDIRECTS" ∈ (analyzeSingleUrl headAlwaysRedirect whoisOld
        cfgShort "http://bit.ly/abc").suspicion_reasons :=
  ⟨by decide, by decide, by decide⟩

/-- Claim C2, amended: for every shortener-matched URL whose redirect chain
exceeds the hop limit (every response a redirect), the analysis records
`TOO_MANY_REDIRECTS` among the suspicion reasons and aborts with the
finding's `final_url` still equal to the original URL (the resolver itself
reports no final URL); and the redirect loop issues at most the hop-limit
number of HEAD requests for every session and fuel. -/
theorem too_many_redirects_outcome (head : String → Option (Nat × Option String))
    (whoisO : String → WhoisOutcome) (cfg : UrlConfig) (url : String)
    (hshort : cfg.url_shorteners.any
        (fun s => strContainsStr (urlparse url).netloc s) = true)
    (hredir : ∀ u, ∃ s l, head u = some (s, some l) ∧ 300 ≤ s ∧ s < 400) :
    (analyzeSingleUrl head whoisO cfg url).final_url = some url ∧
    "TOO_MANY_REDIRECTS" ∈
      (analyzeSingleUrl head whoisO cfg url).suspicion_reasons ∧
    ∀ (session : String → Option (Nat × Option String)) (fuel : Nat)
      (cur : String), (resolveUrlAux session fuel cur).2.2 ≤ fuel := by
  have hres : resolve_url head url = (none, ["TOO_MANY_REDIRECTS"], 5) :=
    resolveUrlAux_allRedirect head hredir 5 url
  unfold analyzeSingleUrl
  rw [if_pos hshort]
  simp only [hres]
  exact ⟨by trivial, by simp, fun session fuel cur => resolveUrlAux_hops_le session fuel cur⟩

/-- Witness for `too_many_redirects_outcome` on a concrete shortener URL
and an always-redirecting session. -/
theorem too_many_redirects_outcome_witness :
    "TOO_MANY_REDIRECTS" ∈ (analyzeSingleUrl headAlwaysRedirect whoisOld
        cfgShort "http://bit.ly/abc").suspicion_reasons ∧
    (analyzeSingleUrl headAlwaysRedirect whoisOld cfgShort
        "http://bit.ly/abc").final_url = some "http://bit.ly/abc" :=
  ⟨(too_many_redirects_outcome headAlwaysRedirect whoisOld cfgShort
      "http://bit.ly/abc" (by decide)
      (fun u => ⟨301, "http://hop.example/", rfl, by omega, by omega⟩)).2.1,
   (too_many_redirects_outcome headAlwaysRedirect whoisOld cfgShort
      "http://bit.ly/abc" (by decide)
      (fun u => ⟨301, "http://hop.example/", rfl, by omega, by omega⟩)).1⟩

/-! ## Claim C4 — zip member inspection -/

theorem zipScan_found (dangerous : List String) :
    ∀ names : List String,
      (∃ n ∈ names, strLower (splitextExt n) ∈ dangerous) →
      (zipScan dangerous names).1 = true := by
  intro names
  induction names with
  | nil => rintro ⟨n, hn, _⟩; cases hn
  | cons m rest ih =>
    rintro ⟨n, hn, hdang⟩
    by_cases hm : strLower (splitextExt m) ∈ dangerous
    · simp [zipScan, hm]
    · rcases List.mem_cons.mp hn with hnm | hnr
      · exact absurd (hnm ▸ hdang) hm
      · simpa [zipScan, hm] using ih ⟨n, hnr, hdang⟩

theorem zipScan_short_circuit (dangerous : List String) (l₁ : List String)
    (d : String) (l₂ : List String)
    (hsafe : ∀ x ∈ l₁, strLower (splitextExt x) ∉ dangerous)
    (hdang : strLower (splitextExt d) ∈ dangerous) :
    zipScan dangerous (l₁ ++ d :: l₂) = (true, l₁.length + 1) := by
  induction l₁ with
  | nil => simp [zipScan, hdang]
  | cons x xs ih =>
    have hx := hsafe x (by simp)
    have ihx := ih (fun y hy => hsafe y (by simp [hy]))
    simp [zipScan, hx, ihx]

/-- Claim C4: for every zip attachment (outer extension `.zip`) of a
multipart message whose archive contains a member with a dangerous
lowercased final extension, the resulting finding has both
`contains_executable_in_zip = true` and `is_dangerous = true` — whether or
not `.zip` itself is configured dangerous — and the member scan stops at
the first dangerous member: on `l₁ ++ d :: l₂` with `l₁` safe and `d`
dangerous it examines exactly `l₁.length + 1` members, never touching
`l₂`. -/
theorem zip_member_detection_and_short_circuit (dangerous : List String)
    (msg : EmailMessage) (p : MimePart) (names : List String) (fname : String)
    (hm : msg.isMultipart = true) (hp : p ∈ walkParts msg)
    (hd : dispositionIsAttachment p = true) (hf : p.filename = some fname)
    (hne : (fname == "") = false)
    (hz : strLower (splitextExt fname) = ".zip")
    (hn : p.zipNames = some names)
    (hdang : ∃ n ∈ names, strLower (splitextExt n) ∈ dangerous) :
    (∃ a ∈ analyze_attachments msg dangerous,
        a.filename = fname ∧ a.contains_executable_in_zip = true ∧
          a.is_dangerous = true) ∧
    (∀ l₁ d l₂, names = l₁ ++ d :: l₂ →
        (∀ x ∈ l₁, strLower (splitextExt x) ∉ dangerous) →
        strLower (splitextExt d) ∈ dangerous →
        zipScan dangerous names = (true, l₁.length + 1)) := by
  have hfound : (zipScan dangerous names).1 = true :=
    zipScan_found dangerous names hdang
  constructor
  · have hone : analyzeOnePart dangerous p =
        some { filename := fname
               file_type := ".zip"
               is_dangerous := dangerous.contains ".zip" || (zipScan dangerous names).1
               contains_executable_in_zip := (zipScan dangerous names).1 } := by
      unfold analyzeOnePart
      rw [hd]
      simp [hf, hne, hz, hn]
    refine ⟨{ filename := fname
              file_type := ".zip"
              is_dangerous := dangerous.contains ".zip" || (zipScan dangerous names).1
              contains_executable_in_zip := (zipScan dangerous names).1 },
      ?_, rfl, hfound, ?_⟩
    · unfold analyze_attachments
      rw [if_pos hm]
      exact List.mem_filterMap.mpr ⟨p, hp, hone⟩
    · rw [hfound, Bool.or_true]
  · intro l₁ d l₂ hnames hsafe hd2
    exact hnames ▸ zipScan_short_circuit dangerous l₁ d l₂ hsafe hd2

/-- Witness for `zip_member_detection_and_short_circuit`: a zip attachment
holding `payload.js` with only `.js` configured dangerous, where the scan
examines exactly two of the three members. -/
theorem zip_member_detection_witness :
    (∃ a ∈ analyze_attachments zipAttachmentMsg [".js"],
        a.filename = "invoice.zip" ∧ a.contains_executable_in_zip = true ∧
          a.is_dangerous = true) ∧
      zipScan [".js"] ["readme.txt", "payload.js", "more.txt"] = (true, 2) := by
  have h := zip_member_detection_and_short_circuit [".js"] zipAttachmentMsg
    { contentDisposition := some "attachment; filename=invoice.zip"
      filename := some "invoice.zip"
      zipNames := some ["readme.txt", "payload.js", "more.txt"] }
    ["readme.txt", "payload.js", "more.txt"] "invoice.zip"
    rfl (by decide) (by decide) rfl (by decide) (by decide) rfl
    ⟨"payload.js", by decide, by decide⟩
  exact ⟨h.1, h.2 ["readme.txt"] "payload.js" ["more.txt"] rfl
    (by decide) (by decide)⟩

/-! ## Membership lemmas for `analyzeTail` -/

theorem mem_ite_nil_singleton {α : Type} (x y : α) (c : Prop) [Decidable c] :
    x ∈ (if c then [] else [y]) ↔ ¬c ∧ x = y := by
  by_cases hc : c <;> simp [hc]

theorem analyzeTail_mem_mono (whoisO : String → WhoisOutcome) (cfg : UrlConfig)
    (a : UrlAnalysis) (x : String) (hx : x ∈ a.suspicion_reasons) :
    x ∈ (analyzeTail whoisO cfg a).suspicion_reasons := by
  cases hh : (urlparse (a.final_url.getD "")).hostname with
  | none => simp [analyzeTail, hh, hx]
  | some h => simp [analyzeTail, hh, hx]

theorem analyzeTail_suspicious (whoisO : String → WhoisOutcome)
    (cfg : UrlConfig) (a : UrlAnalysis) (ha : a.is_suspicious = true) :
    (analyzeTail whoisO cfg a).is_suspicious = true := by
  cases hh : (urlparse (a.final_url.getD "")).hostname with
  | none => simp [analyzeTail, hh]
  | some h => simp [analyzeTail, hh, ha]

theorem analyzeTail_no_shortener (whoisO : String → WhoisOutcome)
    (cfg : UrlConfig) (a : UrlAnalysis) :
    "USES_URL_SHORTENER" ∈ (analyzeTail whoisO cfg a).suspicion_reasons ↔
      "USES_URL_SHORTENER" ∈ a.suspicion_reasons := by
  cases hh : (urlparse (a.final_url.getD "")).hostname with
  | none => simp [analyzeTail, hh]
  | some h =>
    cases hwout : whoisO h <;>
      simp [analyzeTail, hh, get_domain_age, hwout, mem_ite_singleton,
        mem_ite_nil_singleton]

theorem analyzeTail_excessive (whoisO : String → WhoisOutcome)
    (cfg : UrlConfig) (a : UrlAnalysis) (h : String)
    (hh : (urlparse (a.final_url.getD "")).hostname = some h) :
    "EXCESSIVE_SUBDOMAINS" ∈ (analyzeTail whoisO cfg a).suspicion_reasons ↔
      ("EXCESSIVE_SUBDOMAINS" ∈ a.suspicion_reasons ∨ 4 ≤ countChar '.' h) := by
  cases hwout : whoisO h <;>
    simp [analyzeTail, hh, get_domain_age, hwout, mem_ite_singleton,
      mem_ite_nil_singleton]

/-! ## Claim C6 — subdomain-count threshold -/

set_option maxHeartbeats 1000000 in
/-- Claim C6, counterexample: `http://a.b.c.d/x` has a hostname with
exactly 4 dot-separated labels, yet the analysis does not record
`EXCESSIVE_SUBDOMAINS`: the code tests `hostname.count('.') >= 4`, which
requires at least 5 labels. -/
theorem four_label_hostname_not_flagged :
    (urlparse "http://a.b.c.d/x").hostname = some "a.b.c.d" ∧
    (splitOnStr "a.b.c.d" '.').length = 4 ∧
    "EXCESSIVE_SUBDOMAINS" ∉ (analyzeSingleUrl headPlain whoisOld
        ({} : UrlConfig) "http://a.b.c.d/x").suspicion_reasons :=
  ⟨by decide, by decide, by decide⟩

/-- Claim C6, amended: for every analyzed URL that is not shortener-matched
and parses to a hostname `h`, `EXCESSIVE_SUBDOMAINS` is recorded (and only
then) exactly when `h` contains at least 4 dots, i.e. has 5 or more
dot-separated labels; a hostname with 4 or fewer labels does not trigger
the reason. -/
theorem excessive_subdomains_threshold (head : String → Option (Nat × Option String))
    (whoisO : String → WhoisOutcome) (cfg : UrlConfig) (url : String) (h : String)
    (hns : cfg.url_shorteners.any
        (fun s => strContainsStr (urlparse url).netloc s) = false)
    (hh : (urlparse url).hostname = some h) :
    "EXCESSIVE_SUBDOMAINS" ∈
        (analyzeSingleUrl head whoisO cfg url).suspicion_reasons ↔
      4 ≤ countChar '.' h := by
  unfold analyzeSingleUrl
  rw [if_neg (by simp [hns])]
  rw [analyzeTail_excessive whoisO cfg
    { original_url := url, final_url := some url, is_suspicious := false
      suspicion_reasons := [], domain_age_days := none } h hh]
  simp

/-- Witness for `excessive_subdomains_threshold`: a 5-label hostname is
flagged. -/
theorem excessive_subdomains_threshold_witness :
    "EXCESSIVE_SUBDOMAINS" ∈ (analyzeSingleUrl headPlain whoisOld
        ({} : UrlConfig) "http://a.b.c.d.e/x").suspicion_reasons ∧
      4 ≤ countChar '.' "a.b.c.d.e" :=
  ⟨(excessive_subdomains_threshold headPlain whoisOld ({} : UrlConfig)
      "http://a.b.c.d.e/x" "a.b.c.d.e" (by decide) (by decide)).mpr (by decide),
   by decide⟩

/-! ## Claim C10 — shortener detection is a substring test -/

/-- Claim C10: `USES_URL_SHORTENER` is recorded (and the URL marked
suspicious) exactly when some configured shortener string occurs anywhere
inside the URL's netloc as a contiguous substring — including inside a
longer, unrelated hostname — not only when the host equals or is a
subdomain of a shortener domain. -/
theorem shortener_substring_semantics (head : String → Option (Nat × Option String))
    (whoisO : String → WhoisOutcome) (cfg : UrlConfig) (url : String) :
    ("USES_URL_SHORTENER" ∈
        (analyzeSingleUrl head whoisO cfg url).suspicion_reasons ↔
      ∃ s ∈ cfg.url_shorteners, ∃ pre post,
        (urlparse url).netloc.toList = pre ++ s.toList ++ post) ∧
    ((∃ s ∈ cfg.url_shorteners, ∃ pre post,
        (urlparse url).netloc.toList = pre ++ s.toList ++ post) →
      (analyzeSingleUrl head whoisO cfg url).is_suspicious = true) := by
  have hcond : (cfg.url_shorteners.any
      (fun s => strContainsStr (urlparse url).netloc s) = true) ↔
      (∃ s ∈ cfg.url_shorteners, ∃ pre post,
        (urlparse url).netloc.toList = pre ++ s.toList ++ post) := by
    rw [List.any_eq_true]
    simp only [strContainsStr_iff]
  constructor
  · by_cases hit : cfg.url_shorteners.any
        (fun s => strContainsStr (urlparse url).netloc s) = true
    · refine ⟨fun _ => hcond.mp hit, fun _ => ?_⟩
      unfold analyzeSingleUrl
      rw [if_pos hit]
      cases hr : (resolve_url head url).1 with
      | none => simp [hr]
      | some f =>
        simp only [hr]
        by_cases hf : (f == "") = true
        · simp [hf]
        · rw [if_neg hf]
          exact analyzeTail_mem_mono whoisO cfg _ _ (by simp)
    · have hit' : cfg.url_shorteners.any
          (fun s => strContainsStr (urlparse url).netloc s) = false :=
        Bool.eq_false_iff.mpr hit
      constructor
      · intro hmem
        exfalso
        unfold analyzeSingleUrl at hmem
        rw [if_neg (by simp [hit']), analyzeTail_no_shortener] at hmem
        simp at hmem
      · intro hex
        exact absurd (hcond.mpr hex) hit
  · intro hex
    have hit := hcond.mpr hex
    unfold analyzeSingleUrl
    rw [if_pos hit]
    cases hr : (resolve_url head url).1 with
    | none => simp [hr]
    | some f =>
      simp only [hr]
      by_cases hf : (f == "") = true
      · simp [hf]
      · rw [if_neg hf]
        exact analyzeTail_suspicious whoisO cfg _ rfl

/-- Witness for `shortener_substring_semantics`: `bit.ly` configured,
netloc `notbit.ly.evil.com` — the shortener string occurs strictly inside a
longer hostname and still triggers. -/
theorem shortener_substring_semantics_witness :
    "USES_URL_SHORTENER" ∈ (analyzeSingleUrl headPlain whoisOld cfgShort
        "http://notbit.ly.evil.com/x").suspicion_reasons ∧
      (analyzeSingleUrl headPlain whoisOld cfgShort
        "http://notbit.ly.evil.com/x").is_suspicious = true :=
  ⟨(shortener_substring_semantics headPlain whoisOld cfgShort
        "http://notbit.ly.evil.com/x").1.mpr
      ⟨"bit.ly", by decide, "not".toList, ".evil.com".toList, by decide⟩,
   (shortener_substring_semantics headPlain whoisOld cfgShort
        "http://notbit.ly.evil.com/x").2
      ⟨"bit.ly", by decide, "not".toList, ".evil.com".toList, by decide⟩⟩
